import Mathlib

/-!
# Verification of the merakiPlaybooks execution engine (`src/meraki_auditor/core.py`)

Shallow embedding of the playbook executor, topology cache, response
projection and report builder, with the remote Meraki API modelled as an
oracle (a function from targets to `Except String Val`, standing for
"returns a JSON value or raises").  Python JSON-like values are the
inductive `Val`; Python `dict`s are association lists with Python's
update-in-place assignment semantics.
-/

namespace MerakiAuditor

/-- A Python/JSON-like value: `None`, strings, integers, booleans,
objects (dicts) and lists. -/
inductive Val : Type where
  | null : Val
  | str : String → Val
  | int : Int → Val
  | bool : Bool → Val
  | obj : List (String × Val) → Val
  | list : List Val → Val

/-- A Python dict of JSON values (association list, first binding wins). -/
abbrev Dict := List (String × Val)

/-- `d.get(k)` / `k in d`: first binding for `k`, if any. -/
def alistLookup {α : Type} (d : List (String × α)) (k : String) : Option α :=
  match d with
  | [] => none
  | (k', v) :: rest => if k' = k then some v else alistLookup rest k

/-- Python `d[k] = v`: update the existing binding in place (keeping its
position, as CPython dicts do) or append a new one. -/
def alistInsert {α : Type} (d : List (String × α)) (k : String) (v : α) :
    List (String × α) :=
  match d with
  | [] => [(k, v)]
  | (k', v') :: rest =>
    if k' = k then (k, v) :: rest else (k', v') :: alistInsert rest k v

/-- Python `k in d` for a dict. -/
def hasKey (d : Dict) (k : String) : Bool := (alistLookup d k).isSome

/-- Attribute/key access on a `Val` that may or may not be a dict:
`v.get(k)` returns `none` when `v` is not a dict or lacks the key. -/
def getKey? (v : Val) (k : String) : Option Val :=
  match v with
  | .obj d => alistLookup d k
  | _ => none

/-- Python `v.get(k, default)`.  Note CPython's `d.get(k)` returns `None`
for a key bound to `None` and for a missing key alike; bindings to
`.null` and absence both yield the default here only via `getKey?`
returning the stored value — we store no explicit `None` bindings in the
records the engine builds, so `getD` coincides with `dict.get`. -/
def getD (v : Val) (k : String) (default : Val) : Val :=
  (getKey? v k).getD default

/-- Python `s.split('.')` on the dot character (auxiliary loop).  Kept at
the character level so that the kernel can evaluate it on literals. -/
def splitDotAux : List Char → List Char → List String
  | [], acc => [String.mk acc.reverse]
  | c :: rest, acc =>
    if c = '.' then String.mk acc.reverse :: splitDotAux rest []
    else splitDotAux rest (c :: acc)

/-- Python `s.split('.')`: always a non-empty list; `''.split('.') = ['']`. -/
def splitDot (s : String) : List String := splitDotAux s.data []

/-- Python `s.startswith(p)`, at the character level. -/
def strStartsWith (s p : String) : Bool := p.data.isPrefixOf s.data

/-- A network record, as selected by the GUI (`{'id': …, 'name': …}`). -/
structure Network : Type where
  id : String
  name : String
deriving DecidableEq

/-- One playbook step (`core.py` class `ApiCall`, lines 456–467). -/
structure ApiCall : Type where
  name : String
  endpoint : String
  method : String
  output_folder : String
  parameters : Dict
  output_filter : List String
  requires_device : Bool

/-- The `ApiCall.__init__` rule
`self.requires_device = requires_device or endpoint.startswith('devices.')`. -/
def ApiCall.make (name endpoint method output_folder : String)
    (parameters : Dict) (output_filter : List String)
    (requires_device : Bool) : ApiCall :=
  { name := name, endpoint := endpoint, method := method,
    output_folder := output_folder, parameters := parameters,
    output_filter := output_filter,
    requires_device := requires_device || strStartsWith endpoint "devices." }

/-- Playbook metadata (`core.py` class `PlaybookConfig`, lines 440–454). -/
structure PlaybookConfig : Type where
  name : String
  description : String
  version : String
  author : String

/-- A parsed playbook: metadata plus ordered steps. -/
structure Playbook : Type where
  config : PlaybookConfig
  api_calls : List ApiCall

/-- The inner loop of `ApiCall.filter_response` (`core.py` 476–484):
walk a dotted path segment by segment; once the current value is not a
dict (Python sets `value = None` and breaks) or the segment is missing
(`dict.get` gives `None`), the result is `None`. -/
def walkPath (response : Val) (parts : List String) : Val :=
  parts.foldl
    (fun value part =>
      match value with
      | .obj d => (alistLookup d part).getD .null
      | _ => .null)
    response

/-- `ApiCall.filter_response` (`core.py` 469–486): project a response
onto the dotted paths of `output_filter`; pass the response through
unchanged when the filter list is empty or the response is not a dict. -/
def filter_response (output_filter : List String) (response : Val) : Val :=
  if output_filter.isEmpty then response
  else
    match response with
    | .obj _ =>
      .obj (output_filter.foldl
        (fun filtered_data field =>
          alistInsert filtered_data field
            (walkPath response (splitDot field)))
        [])
    | _ => response

/-! ## Topology cache and result records -/

/-- The device cache: network id ↦ list of device records (each a `Val`;
the Meraki API returns a list of dicts).  Both `MerakiConnection.devices`
and `PlaybookExecutor.devices` have this shape. -/
abbrev DevCache := List (String × List Val)

/-- Cache read `self.connection.devices.get(network['id'], [])`. -/
def cacheGet (c : DevCache) (id : String) : List Val :=
  (alistLookup c id).getD []

/-- `'serial' in d` for a device record (device records are dicts). -/
def hasSerial (d : Val) : Bool :=
  match d with
  | .obj fs => hasKey fs "serial"
  | _ => false

/-- The list comprehension `[d for d in devices if 'serial' in d]`. -/
def serialFilter (ds : List Val) : List Val := ds.filter hasSerial

/-- A successful network-level record (`core.py` 246–250). -/
def netSuccessRecord (n : Network) (data : Val) : Dict :=
  [("network", .str n.name), ("networkId", .str n.id), ("data", data)]

/-- A failed network-level record (`core.py` 255–259): carries `str(e)`
under `'error'` instead of a `'data'` payload. -/
def netErrorRecord (n : Network) (e : String) : Dict :=
  [("network", .str n.name), ("networkId", .str n.id), ("error", .str e)]

/-- A successful device-level record (`core.py` 302–310). -/
def devRecord (n : Network) (d : Val) (serial : Val) (data : Val) : Dict :=
  [("network", .str n.name), ("networkId", .str n.id),
   ("deviceName", getD d "name" serial), ("deviceSerial", serial),
   ("deviceModel", getD d "model" (.str "")),
   ("deviceType", getD d "productType" (.str "")),
   ("data", data)]

/-! ## The execution engine -/

/-- The remote Meraki dashboard, modelled as oracles: each call either
returns a JSON value or raises (`Except.error` carries `str(e)`).
`netcall` stands for `getattr(dashboard.networks, step.method)(**params)`,
`devcall` for `getattr(dashboard.devices, step.method)(**params)` and
`discover` for `dashboard.networks.getNetworkDevices(networkId=…)`. -/
structure Oracles : Type where
  netcall : ApiCall → Network → Except String Val
  devcall : ApiCall → Network → Val → Except String Val
  discover : Network → Except String (List Val)

/-- One iteration of the network loop (`core.py` 221–259): resolve the
endpoint (a first segment other than `networks` raises `ValueError`,
caught by the same handler), invoke the call, on a `networks.devices`
endpoint write the serial-filtered result into the executor's device
cache (`self.devices`, NOT `self.connection.devices`), and produce one
success or one error record.  A non-list `networks.devices` response
makes the comprehension `[d for d in result …]` raise, which the handler
turns into an error record. -/
def processNetwork (o : Oracles) (step : ApiCall) (n : Network)
    (execDevices : DevCache) : Dict × DevCache :=
  if (splitDot step.endpoint).headD "" ≠ "networks" then
    (netErrorRecord n ("Unsupported network endpoint: " ++ step.endpoint),
     execDevices)
  else
    match o.netcall step n with
    | .error e => (netErrorRecord n e, execDevices)
    | .ok result =>
      if step.endpoint = "networks.devices" then
        match result with
        | .list ds =>
          (netSuccessRecord n result,
           alistInsert execDevices n.id (serialFilter ds))
        | _ => (netErrorRecord n "TypeError: result is not iterable",
                execDevices)
      else (netSuccessRecord n result, execDevices)

/-- The network fan-out loop of `_execute_network_call` (`core.py`
217–265).  `done` counts networks already processed (the code's `idx` is
`done + 1`), `total` is `len(selected_networks)`, `base` the step's base
progress and `u = 100 / total_steps`.  Returns the records in network
iteration order, the updated executor device cache and the progress
values emitted (one per network: `base + idx / total * u`). -/
def netLoop (o : Oracles) (step : ApiCall) (total : ℕ) (base u : ℚ) :
    List Network → ℕ → DevCache → List Dict × DevCache × List ℚ
  | [], _, ed => ([], ed, [])
  | n :: rest, done, ed =>
    let pr := processNetwork o step n ed
    let prog := base + (((done + 1 : ℕ) : ℚ) / (total : ℚ)) * u
    let rest' := netLoop o step total base u rest (done + 1) pr.2
    (pr.1 :: rest'.1, rest'.2.1, prog :: rest'.2.2)

/-- `PlaybookExecutor._execute_network_call` (`core.py` 217–265),
abstracted over the dashboard.  `totalSteps` is
`len(self.current_playbook.api_calls)`. -/
def execute_network_call (o : Oracles) (step : ApiCall)
    (selected : List Network) (execDevices : DevCache)
    (base : ℚ) (totalSteps : ℕ) : List Dict × DevCache × List ℚ :=
  netLoop o step selected.length base ((100 : ℚ) / (totalSteps : ℚ))
    selected 0 execDevices

/-- The flattened `(network, device)` target list of
`_execute_device_call` (`core.py` 272–275), read from the CONNECTION's
device cache. -/
def allTargets (selected : List Network) (connDevices : DevCache) :
    List (Network × Val) :=
  selected.flatMap fun n => (cacheGet connDevices n.id).map fun d => (n, d)

/-- The device fan-out loop of `_execute_device_call` (`core.py`
282–325).  `device['serial']` is evaluated inside the `try` (first in the
status line), so a record without a serial raises `KeyError` and is
skipped like any per-device failure: the target is silently omitted and
no error record is appended.  `devices_processed` advances for every
target, success or not, and one progress value is emitted per target. -/
def devLoop (o : Oracles) (step : ApiCall) (total : ℕ) (base u : ℚ) :
    List (Network × Val) → ℕ → List Dict × List ℚ
  | [], _ => ([], [])
  | (n, d) :: rest, done =>
    let out : Option Dict :=
      match getKey? d "serial" with
      | none => none
      | some serial =>
        match o.devcall step n d with
        | .error _ => none
        | .ok result =>
          some (devRecord n d serial
            (filter_response step.output_filter result))
    let prog := base + (((done + 1 : ℕ) : ℚ) / (total : ℚ)) * u
    let rest' := devLoop o step total base u rest (done + 1)
    (match out with | some r => r :: rest'.1 | none => rest'.1,
     prog :: rest'.2)

/-- `PlaybookExecutor._execute_device_call` (`core.py` 267–327): an empty
flattened target list logs a warning and returns zero records (no inner
progress updates); otherwise every target is attempted in order. -/
def execute_device_call (o : Oracles) (step : ApiCall)
    (selected : List Network) (connDevices : DevCache)
    (base : ℚ) (totalSteps : ℕ) : List Dict × List ℚ :=
  let ts := allTargets selected connDevices
  if ts.length = 0 then ([], [])
  else devLoop o step ts.length base ((100 : ℚ) / (totalSteps : ℚ)) ts 0

/-- One iteration of the device pre-caching loop (`core.py` 169–176):
skip a network whose id is already a cache key
(`if network['id'] not in self.connection.devices`); otherwise issue the
discovery call, storing the serial-filtered list on success and storing
nothing on failure (the error is only logged).  The second component
records the ids a discovery call was issued for. -/
def preloadStep (o : Oracles) (acc : DevCache × List String) (n : Network) :
    DevCache × List String :=
  if (alistLookup acc.1 n.id).isSome then acc
  else
    match o.discover n with
    | .ok ds => (alistInsert acc.1 n.id (serialFilter ds), acc.2 ++ [n.id])
    | .error _ => (acc.1, acc.2 ++ [n.id])

/-- The device pre-caching block of `execute` (`core.py` 166–176): if any
step requires devices, run the pre-caching loop over every selected
network. -/
def preload (o : Oracles) (pb : Playbook) (selected : List Network)
    (connDevices : DevCache) : DevCache × List String :=
  if pb.api_calls.any (·.requires_device) then
    selected.foldl (preloadStep o) (connDevices, [])
  else (connDevices, [])

/-- One step of the `execute` loop body (`core.py` 184–190): dispatch on
`step.requires_device`; device-level steps read the connection cache and
leave the executor cache alone, network-level steps may update the
executor cache. -/
def runStep (o : Oracles) (totalSteps : ℕ) (selected : List Network)
    (connDevices : DevCache) (step : ApiCall) (base : ℚ)
    (execDevices : DevCache) : List Dict × DevCache × List ℚ :=
  if step.requires_device then
    let dc := execute_device_call o step selected connDevices base totalSteps
    (dc.1, execDevices, dc.2)
  else execute_network_call o step selected execDevices base totalSteps

/-- The step loop of `execute` (`core.py` 178–199).  `done` counts steps
already executed (the code's `idx` is `done + 1`).  Returns the ordered
list of per-step writes `(output_folder, step_results)` — the code then
performs `results[step.output_folder] = step_results` for each, in order
— together with the final executor cache and the emitted progress values
(each step's inner updates followed by the coarse
`idx / total_steps * 100`). -/
def execLoop (o : Oracles) (totalSteps : ℕ) (selected : List Network)
    (connDevices : DevCache) :
    List ApiCall → ℕ → DevCache →
    List (String × List Dict) × DevCache × List ℚ
  | [], _, ed => ([], ed, [])
  | step :: rest, done, ed =>
    let base : ℚ := ((done : ℕ) : ℚ) / (totalSteps : ℚ) * 100
    let sr := runStep o totalSteps selected connDevices step base ed
    let outer : ℚ := (((done + 1 : ℕ) : ℚ)) / (totalSteps : ℚ) * 100
    let rest' := execLoop o totalSteps selected connDevices rest (done + 1)
      sr.2.1
    ((step.output_folder, sr.1) :: rest'.1, rest'.2.1,
     sr.2.2 ++ outer :: rest'.2.2)

/-- The state `execute` leaves behind: the results dict (bucket name ↦
records), both device caches, the emitted progress sequence and the ids
preload issued discovery calls for. -/
structure ExecOut : Type where
  results : List (String × List Dict)
  connDevices : DevCache
  execDevices : DevCache
  progress : List ℚ
  discovered : List String

/-- `PlaybookExecutor.execute` (`core.py` 155–215), abstracted over the
dashboard; the caller supplies the loaded playbook, the connection's
selected networks and its device cache.  The results dict is the left
fold of the per-step assignments `results[folder] = step_results`
(Python dict assignment = `alistInsert`), so a later step sharing a
bucket name replaces the earlier entry.  The progress sequence starts
with the initial `update_progress(0)`. -/
def executePlaybook (o : Oracles) (pb : Playbook) (selected : List Network)
    (connDevices : DevCache) : ExecOut :=
  let pre := preload o pb selected connDevices
  let run := execLoop o pb.api_calls.length selected pre.1 pb.api_calls 0 []
  { results := run.1.foldl (fun res w => alistInsert res w.1 w.2) []
    connDevices := pre.1
    execDevices := run.2.1
    progress := 0 :: run.2.2
    discovered := pre.2 }

/-- `MerakiConnection.select_networks` (`core.py` 108–120): filter the
known networks by the chosen ids, then pre-cache each selected network's
devices — storing the fetched list UNFILTERED (no serial check here,
unlike the `execute` preload); a failure is logged and nothing stored. -/
def select_networks (discover : Network → Except String (List Val))
    (networks : List Network) (network_ids : List String)
    (devices : DevCache) : List Network × DevCache :=
  let sel := networks.filter fun n => n.id ∈ network_ids
  (sel,
   sel.foldl
     (fun c n =>
       match discover n with
       | .ok ds => alistInsert c n.id ds
       | .error _ => c)
     devices)

/-! ## Report builder (`ReportGenerator._generate_csv_report`) -/

/-- Merging a payload dict into the row: `flat_result[key] = value` for
each pair, in order (`core.py` 402–403 / 410–411). -/
def mergeFields (base : Dict) (fs : Dict) : Dict :=
  fs.foldl (fun acc kv => alistInsert acc kv.1 kv.2) base

/-- Flattening one bucket record (`core.py` 374–417).  A record carrying
an `'error'` key is formatted into the log line
`f"Error in network {result['network']}: {result['error']}"` (line 376)
— which raises an uncaught `KeyError` when the record lacks `'network'`,
as the whole-step failure entries `[{'error': msg}]` of line 197 do —
and is then `continue`d past, contributing NO row (`.ok none`).  Other
records must have `'network'` and `'data'` (a missing key raises
`KeyError`, modelled as `.error`); the row starts from the common
columns, then merges the payload's fields when the payload is a dict, or
the FIRST element's fields when it is a non-empty list of dicts. -/
def flattenRecord (r : Dict) : Except String (Option Dict) :=
  if hasKey r "error" then
    match alistLookup r "network" with
    | some _ => .ok none
    | none => .error "KeyError: network"
  else
    match alistLookup r "network", alistLookup r "data" with
    | some nw, some dta =>
      let base : Dict :=
        [("network", nw),
         ("deviceName", (alistLookup r "deviceName").getD (.str "")),
         ("deviceSerial", (alistLookup r "deviceSerial").getD (.str "")),
         ("deviceModel", (alistLookup r "deviceModel").getD (.str "")),
         ("deviceType", (alistLookup r "deviceType").getD (.str ""))]
      let row :=
        match dta with
        | .obj fs => mergeFields base fs
        | .list (x :: _) =>
          match x with
          | .obj fs => mergeFields base fs
          | _ => base
        | _ => base
      .ok (some row)
    | none, _ => .error "KeyError: network"
    | _, none => .error "KeyError: data"

/-- The `flattened_data` list for a bucket (`core.py` 373–417). -/
def flattenBucket (bucket : List Dict) : Except String (List Dict) :=
  match bucket with
  | [] => .ok []
  | r :: rest => do
    let hd ← flattenRecord r
    let tl ← flattenBucket rest
    match hd with
    | some row => pure (row :: tl)
    | none => pure tl

/-- The column set `pandas.DataFrame(flattened_data)` infers: the union
of the rows' keys, in order of first appearance. -/
def keyUnion (rows : List Dict) : List String :=
  rows.foldl
    (fun cols r => r.foldl
      (fun cs kv => if kv.1 ∈ cs then cs else cs ++ [kv.1]) cols)
    []

/-- The written CSV file: header plus rows. -/
structure Csv : Type where
  header : List String
  rows : List Dict

/-- The per-bucket emission decision (`core.py` 419–433): an empty
`flattened_data` writes nothing (`if flattened_data:` guards the whole
block); otherwise exactly one CSV is written whose columns are the
DataFrame's inferred columns plus the `'timestamp'` column
(`df['timestamp'] = …` appends it when fresh, overwrites in place when a
payload already produced one) and whose every row carries the
generation timestamp. -/
def bucketCsv (rows : List Dict) (ts : Val) : Option Csv :=
  if rows.isEmpty then none
  else
    some { header :=
             let cols := keyUnion rows
             if "timestamp" ∈ cols then cols else cols ++ ["timestamp"]
           rows := rows.map fun r => alistInsert r "timestamp" ts }

/-! ## `PlaybookExecutor.load_playbook` and the shadowed `Playbook` -/

/-- The `Playbook` class defined at the END of `core.py` (lines 502–505).
Inside `core.py` the name `Playbook` resolves to THIS class, not to the
`Playbook` imported from `playbook.py` on line 9, because the later
module-level `class Playbook:` statement rebinds the name before
`load_playbook` ever runs.  Its `__init__(self, config, api_calls)`
merely assigns the two attributes. -/
structure CorePlaybook : Type where
  config : Val
  api_calls : Val

/-- Calling the `core.py` `Playbook` class with a list of positional
arguments: CPython raises `TypeError` unless exactly the two parameters
`config` and `api_calls` are supplied. -/
def corePlaybookCall (args : List Val) : Except String CorePlaybook :=
  match args with
  | [c, a] => .ok { config := c, api_calls := a }
  | _ => .error
      "TypeError: __init__() missing 1 required positional argument: 'api_calls'"

/-- `PlaybookExecutor.load_playbook` (`core.py` 147–153): construct
`Playbook(playbook_path)` — which resolves to the shadowing class and
raises `TypeError` for the single argument — then (were that reached)
call `.load()`, an attribute the `core.py` class does not define, then
validate and assign `self.current_playbook`.  On any raise the state is
unchanged; the returned pair is the would-be result and new
`current_playbook`. -/
def load_playbook (playbook_path : Val) :
    Except String (CorePlaybook × Option CorePlaybook) := do
  let playbook ← corePlaybookCall [playbook_path]
  let _ ← (Except.error
    "AttributeError: 'Playbook' object has no attribute 'load'" :
    Except String Unit)
  pure (playbook, some playbook)

/-! ## Small helpers and concrete fixtures -/

/-- `isinstance(v, dict)`. -/
def Val.isObj : Val → Bool
  | .obj _ => true
  | _ => false

/-- A `(network, device)` target succeeds iff the device record has a
serial (else `device['serial']` raises `KeyError` inside the `try`) and
the remote call returns instead of raising. -/
def targetSucceeds (o : Oracles) (step : ApiCall) (t : Network × Val) :
    Bool :=
  (getKey? t.2 "serial").isSome &&
    (match o.devcall step t.1 t.2 with
     | .ok _ => true
     | .error _ => false)

/-- The ordered per-step writes `(output_folder, step_results)` a run
performs (`results[step.output_folder] = step_results`, `core.py` 192). -/
def stepWrites (o : Oracles) (pb : Playbook) (selected : List Network)
    (connDevices : DevCache) : List (String × List Dict) :=
  (execLoop o pb.api_calls.length selected
    (preload o pb selected connDevices).1 pb.api_calls 0 []).1

/-- Fixture: a selected network. -/
def netA : Network := ⟨"id1", "NetA"⟩

/-- Fixture: a network-level step writing to bucket `inv`. -/
def stepS1 : ApiCall := ⟨"s1", "networks.foo", "getFoo", "inv", [], [], false⟩

/-- Fixture: a second network-level step writing to the same bucket. -/
def stepS2 : ApiCall := ⟨"s2", "networks.foo", "getFoo", "inv", [], [], false⟩

/-- Fixture: a playbook whose two steps share one output bucket. -/
def pbTwoSteps : Playbook := ⟨⟨"pb", "", "", ""⟩, [stepS1, stepS2]⟩

/-- Fixture: a dashboard whose network calls return the step's name as
payload (so records of different steps are distinguishable). -/
def nameOracle : Oracles :=
  ⟨fun step _ => .ok (.str step.name),
   fun _ _ _ => .ok .null,
   fun _ => .ok []⟩

/-- Fixture: a device-listing network-level step (`networks.devices`). -/
def stepList : ApiCall :=
  ⟨"list devices", "networks.devices", "getNetworkDevices", "inventory",
   [], [], false⟩

/-- Fixture: a device-level step. -/
def stepPorts : ApiCall :=
  ⟨"ports", "devices.switch.ports", "getDeviceSwitchPorts", "ports",
   [], [], true⟩

/-- Fixture: device-listing step followed by a device-level step. -/
def pbCacheWarm : Playbook := ⟨⟨"warm", "", "", ""⟩, [stepList, stepPorts]⟩

/-- Fixture: discovery is down, but the `networks.devices` network call
returns one device with serial `S1` and device calls succeed. -/
def cacheWarmOracle : Oracles :=
  ⟨fun _ _ => .ok (.list [.obj [("serial", .str "S1")]]),
   fun _ _ _ => .ok (.obj [("p", .int 1)]),
   fun _ => .error "API down"⟩

/-- Fixture: a device record lacking a serial identifier. -/
def apDevice : Val := .obj [("name", .str "ap1")]

/-- Fixture: a playbook with a single device-level step. -/
def pbDevOnly : Playbook := ⟨⟨"dev", "", "", ""⟩, [stepPorts]⟩

/-- Fixture: a one-step playbook (for the progress witness). -/
def pbOneStep : Playbook := ⟨⟨"one", "", "", ""⟩, [stepS1]⟩

/-! ## IEEE-754 binary64 model for the progress arithmetic

The progress expressions of `core.py` (lines 179, 199, 262, 323) are
evaluated by CPython in IEEE-754 binary64.  To settle the monotonicity
claim against the arithmetic the program actually performs, the values
are modelled as dyadic rationals `m * 2^e` with integer mantissa and
exponent, and each operation rounds its exact result to 53 significant
bits with round-to-nearest, ties-to-even — exactly the binary64
behaviour for the normal-range, non-negative values the engine computes
(progress values lie in [0, 100]; overflow/subnormals are unreachable).
The fuel arguments bound the normalization loops; 200 far exceeds the
exponent range these values need. -/

/-- `2^52`, the smallest 53-bit mantissa. -/
def twoPow52 : ℤ := 4503599627370496

/-- `2^53`, one past the largest 53-bit mantissa. -/
def twoPow53 : ℤ := 9007199254740992

/-- A binary64 value `m * 2^e` (mantissa normalized into
`[2^52, 2^53)`, or `⟨0, 0⟩` for zero). -/
structure F64 : Type where
  m : ℤ
  e : ℤ
deriving DecidableEq

/-- Scale an exact positive mantissa below `2^52` up into range (the
value is representable exactly, no rounding). -/
def normUp : ℕ → ℤ → ℤ → F64
  | 0, M, e => ⟨M, e⟩
  | fuel + 1, M, e =>
    if M < twoPow52 then normUp fuel (M * 2) (e - 1) else ⟨M, e⟩

/-- The number of halvings needed to bring `M` below `2^53`. -/
def shiftAmt : ℕ → ℤ → ℕ → ℕ
  | 0, _, s => s
  | fuel + 1, M, s =>
    if twoPow53 * (2 : ℤ) ^ s ≤ M then shiftAmt fuel M (s + 1) else s

/-- Round `M / 2^s` (with `M ≥ 0`) to an integer, round-to-nearest,
ties-to-even; `sticky` records whether further non-zero bits were
discarded below `M` (turning an apparent tie into a round-up). -/
def roundAtSticky (M : ℤ) (s : ℕ) (sticky : Bool) : ℤ :=
  let p := (2 : ℤ) ^ s
  let q := M / p
  let r := M % p
  if 2 * r < p then q
  else if p < 2 * r then q + 1
  else if sticky then q + 1
  else if q % 2 = 0 then q else q + 1

/-- Normalize a positive mantissa: scale up exactly, or shift down with
one correct rounding. -/
def normPos (M : ℤ) (e : ℤ) (sticky : Bool) : F64 :=
  if M < twoPow52 then normUp 200 M e
  else
    let s := shiftAmt 200 M 0
    ⟨roundAtSticky M s sticky, e + (s : ℤ)⟩

/-- Normalize any mantissa (zero and negative handled by sign). -/
def normF (M : ℤ) (e : ℤ) (sticky : Bool) : F64 :=
  if M = 0 then ⟨0, 0⟩
  else if 0 < M then normPos M e sticky
  else
    let f := normPos (-M) e sticky
    ⟨-f.m, f.e⟩

/-- The binary64 value of a small integer (exact). -/
def intF (n : ℤ) : F64 := normF n 0 false

/-- Binary64 multiplication: exact integer product, then one rounding. -/
def fmul (a b : F64) : F64 := normF (a.m * b.m) (a.e + b.e) false

/-- Binary64 addition: exact aligned sum, then one rounding. -/
def fadd (a b : F64) : F64 :=
  let d := a.e - b.e
  if 0 ≤ d then normF (a.m * (2 : ℤ) ^ d.toNat + b.m) b.e false
  else normF (a.m + b.m * (2 : ℤ) ^ (-d).toNat) a.e false

/-- Binary64 division (positive operands as the engine uses it): the
quotient is computed with 106 guard bits and the non-zero remainder
recorded as the sticky bit, which yields the correctly rounded result. -/
def fdiv (a b : F64) : F64 :=
  if a.m = 0 then ⟨0, 0⟩
  else if b.m = 0 then ⟨0, 0⟩
  else
    let N := a.m * (2 : ℤ) ^ (106 : ℕ)
    let q := N / b.m
    let r := N % b.m
    normF q (a.e - b.e - 106) (r != 0)

/-- Comparison of two binary64 values by exponent alignment. -/
def F64.le (a b : F64) : Bool :=
  let d := a.e - b.e
  if 0 ≤ d then a.m * (2 : ℤ) ^ d.toNat ≤ b.m
  else a.m ≤ b.m * (2 : ℤ) ^ (-d).toNat

/-- `core.py` 179 in binary64:
`step_progress_base = (idx - 1) / total_steps * 100`. -/
def pyStepBaseF (idx T : ℕ) : F64 :=
  fmul (fdiv (intF ((idx : ℤ) - 1)) (intF (T : ℤ))) (intF 100)

/-- `core.py` 262 in binary64:
`step_progress = base_progress + (idx / total_networks * (100 / len(api_calls)))`. -/
def pyNetProgressF (base : F64) (idx total T : ℕ) : F64 :=
  fadd base
    (fmul (fdiv (intF (idx : ℤ)) (intF (total : ℤ)))
      (fdiv (intF 100) (intF (T : ℤ))))

/-- `core.py` 199 in binary64:
`self.update_progress(idx / total_steps * 100)`. -/
def pyCoarseProgressF (idx T : ℕ) : F64 :=
  fmul (fdiv (intF (idx : ℤ)) (intF (T : ℤ))) (intF 100)

/-- The first three values the progress callback receives, in binary64,
for a run of a three-step playbook whose first step is network-level
against one selected network: `update_progress(0)` (line 164), the inner
update after that network (line 262, with base progress 0), and the
coarse update after step 1 (line 199). -/
def floatProgressRun3 : List F64 :=
  [intF 0,
   pyNetProgressF (pyStepBaseF 1 3) 1 1 3,
   pyCoarseProgressF 1 3]

/-! # Theorems -/

/-! ## Association-list lemmas -/

theorem alistLookup_insert {α : Type} (d : List (String × α)) (k x : String)
    (v : α) :
    alistLookup (alistInsert d k v) x =
      if k = x then some v else alistLookup d x := by
  induction d with
  | nil => simp [alistInsert, alistLookup]
  | cons hd tl ih =>
    obtain ⟨k', v'⟩ := hd
    by_cases hk : k' = k
    · subst hk
      simp only [alistInsert, if_pos rfl, alistLookup]
      split <;> simp_all [alistLookup]
    · simp only [alistInsert, if_neg hk, alistLookup]
      by_cases hx : k' = x
      · subst hx
        have hkx : k ≠ k' := fun h => hk h.symm
        simp [hkx]
      · simp [hx, ih]

theorem alistInsert_of_none {α : Type} (d : List (String × α)) (k : String)
    (v : α) (h : alistLookup d k = none) :
    alistInsert d k v = d ++ [(k, v)] := by
  induction d with
  | nil => simp [alistInsert]
  | cons hd tl ih =>
    obtain ⟨k', v'⟩ := hd
    simp only [alistLookup] at h
    by_cases hk : k' = k
    · simp [hk] at h
    · simp only [alistInsert, if_neg hk, List.cons_append]
      rw [ih (by simpa [hk] using h)]

theorem alistLookup_append {α : Type} (a b : List (String × α)) (x : String) :
    alistLookup (a ++ b) x =
      match alistLookup a x with
      | some v => some v
      | none => alistLookup b x := by
  induction a with
  | nil => simp [alistLookup]
  | cons hd tl ih =>
    obtain ⟨k', v'⟩ := hd
    by_cases hx : k' = x <;> simp [alistLookup, hx, ih]

theorem foldl_alistInsert_fresh (f : String → Val) :
    ∀ (paths : List String) (acc : Dict), paths.Nodup →
    (∀ p ∈ paths, alistLookup acc p = none) →
    paths.foldl (fun d p => alistInsert d p (f p)) acc =
      acc ++ (paths.map fun p => (p, f p))
  | [], acc, _, _ => by simp
  | p :: rest, acc, hnd, hfresh => by
    have hp : alistLookup acc p = none := hfresh p (by simp)
    have hrest : ∀ q ∈ rest, alistLookup (acc ++ [(p, f p)]) q = none := by
      intro q hq
      rw [alistLookup_append]
      have hqp : p ≠ q := by
        rintro rfl
        exact (List.nodup_cons.mp hnd).1 hq
      simp [hfresh q (by simp [hq]), alistLookup, hqp]
    simp only [List.foldl_cons]
    rw [alistInsert_of_none acc p (f p) hp,
      foldl_alistInsert_fresh f rest (acc ++ [(p, f p)])
        (List.nodup_cons.mp hnd).2 hrest,
      List.append_assoc]
    simp

/-! ## C10: `load_playbook` always raises (shadowed `Playbook` class) -/

/-- C10: for every file-path argument, `PlaybookExecutor.load_playbook`
raises and never returns a playbook or sets `current_playbook`: inside
`core.py` the name `Playbook` resolves to the class defined at the end of
the module, whose constructor needs a config and an `api_calls` list, so
`Playbook(playbook_path)` raises `TypeError` before `load` or `validate`
can run. -/
theorem claim_C10_load_playbook (playbook_path : Val) :
    load_playbook playbook_path =
      .error
        "TypeError: __init__() missing 1 required positional argument: 'api_calls'" :=
  rfl

/-! ## C6: response projection (`filter_response`) -/

/-- C6: `filter_response` returns the response unchanged when the path
list is empty or the response is not a dict; otherwise (for distinct
requested paths) it returns a dict with exactly one key per requested
dotted path, in request order, each value obtained by walking the path
(`walkPath`, yielding the null marker on a missing segment or non-dict);
in particular projecting `{"a": {"b": 1}}` on `["a.b", "a.c"]` gives
`{"a.b": 1, "a.c": null}`. -/
theorem claim_C6_projection :
    (∀ response : Val, filter_response [] response = response) ∧
    (∀ (paths : List String) (response : Val), response.isObj = false →
      filter_response paths response = response) ∧
    (∀ (paths : List String) (d : Dict), paths ≠ [] → paths.Nodup →
      filter_response paths (.obj d) =
        .obj (paths.map fun p => (p, walkPath (.obj d) (splitDot p)))) ∧
    filter_response ["a.b", "a.c"] (.obj [("a", .obj [("b", .int 1)])]) =
      .obj [("a.b", .int 1), ("a.c", .null)] := by
  refine ⟨fun _ => rfl, ?_, ?_, rfl⟩
  · intro paths r h
    cases r <;> simp [Val.isObj] at h <;> unfold filter_response <;>
      split <;> rfl
  · intro paths d hne hnd
    obtain ⟨p, ps, rfl⟩ := List.exists_cons_of_ne_nil hne
    unfold filter_response
    rw [if_neg (by simp)]
    rw [foldl_alistInsert_fresh _ _ [] hnd (by intro q _; rfl)]
    simp

/-- Witness for C6 at a concrete input. -/
theorem claim_C6_witness :
    (["x", "y"] : List String) ≠ [] ∧
    filter_response ["x", "y"] (.obj [("x", .int 3)]) =
      .obj ((["x", "y"] : List String).map fun p =>
        (p, walkPath (.obj [("x", .int 3)]) (splitDot p))) :=
  ⟨by decide,
   claim_C6_projection.2.2.1 ["x", "y"] [("x", .int 3)] (by decide)
     (by decide)⟩

/-! ## C3: error records in the report flattening -/

theorem flattenRecord_of_error {r : Dict} (h : hasKey r "error" = true)
    (hn : hasKey r "network" = true) : flattenRecord r = .ok none := by
  unfold flattenRecord
  rw [if_pos h]
  obtain ⟨v, hv⟩ := Option.isSome_iff_exists.mp hn
  rw [hv]

theorem flattenRecord_error_no_network {r : Dict}
    (h : hasKey r "error" = true) (hn : hasKey r "network" = false) :
    flattenRecord r = .error "KeyError: network" := by
  unfold flattenRecord
  rw [if_pos h]
  have hnone : alistLookup r "network" = none := by
    cases hl : alistLookup r "network" with
    | none => rfl
    | some v => simp [hasKey, hl] at hn
  rw [hnone]

theorem flattenRecord_cases {r : Dict} (h : hasKey r "error" = false) :
    (∃ e, flattenRecord r = .error e) ∨ ∃ row, flattenRecord r = .ok (some row) := by
  unfold flattenRecord
  rw [if_neg (by simp [h])]
  cases hn : alistLookup r "network" <;> cases hd : alistLookup r "data" <;>
    simp

theorem flattenBucket_filter (bucket : List Dict) :
    (∀ r ∈ bucket, hasKey r "error" = true → hasKey r "network" = true) →
    flattenBucket bucket =
      flattenBucket (bucket.filter fun r => !(hasKey r "error")) := by
  induction bucket with
  | nil => intro _; rfl
  | cons r rest ih =>
    intro hok
    have hok' : ∀ s ∈ rest, hasKey s "error" = true →
        hasKey s "network" = true :=
      fun s hs => hok s (List.mem_cons_of_mem r hs)
    by_cases h : hasKey r "error" = true
    · have hn : hasKey r "network" = true :=
        hok r (List.mem_cons_self r rest) h
      have hfil : List.filter (fun r => !(hasKey r "error")) (r :: rest) =
          List.filter (fun r => !(hasKey r "error")) rest := by simp [h]
      rw [hfil, ← ih hok']
      simp only [flattenBucket, flattenRecord_of_error h hn]
      cases hrest : flattenBucket rest <;> rfl
    · have h' : hasKey r "error" = false := by simpa using h
      have hfil : List.filter (fun r => !(hasKey r "error")) (r :: rest) =
          r :: List.filter (fun r => !(hasKey r "error")) rest := by simp [h']
      rw [hfil]
      simp only [flattenBucket]
      rw [ih hok']

theorem flattenBucket_length :
    ∀ (bucket : List Dict) (rows : List Dict),
    flattenBucket bucket = .ok rows →
    rows.length = (bucket.filter fun r => !(hasKey r "error")).length := by
  intro bucket
  induction bucket with
  | nil =>
    intro rows h
    injection (show (Except.ok ([] : List Dict) :
      Except String (List Dict)) = .ok rows from h) with h3
    subst h3
    simp
  | cons r rest ih =>
    intro rows h
    by_cases he : hasKey r "error" = true
    · have hn : hasKey r "network" = true := by
        by_cases hn' : hasKey r "network" = true
        · exact hn'
        · exfalso
          have hn'' : hasKey r "network" = false := by simpa using hn'
          simp only [flattenBucket,
            flattenRecord_error_no_network he hn''] at h
          exact Except.noConfusion
            (show (Except.error "KeyError: network" :
              Except String (List Dict)) = .ok rows from h)
      have hfil : List.filter (fun r => !(hasKey r "error")) (r :: rest) =
          List.filter (fun r => !(hasKey r "error")) rest := by simp [he]
      rw [hfil]
      simp only [flattenBucket, flattenRecord_of_error he hn] at h
      cases hrest : flattenBucket rest with
      | error e =>
        rw [hrest] at h
        exact Except.noConfusion
          (show (Except.error e : Except String (List Dict)) = .ok rows from h)
      | ok tl =>
        rw [hrest] at h
        injection (show (Except.ok tl :
          Except String (List Dict)) = .ok rows from h) with h3
        subst h3
        exact ih tl hrest
    · have h' : hasKey r "error" = false := by simpa using he
      have hfil : List.filter (fun r => !(hasKey r "error")) (r :: rest) =
          r :: List.filter (fun r => !(hasKey r "error")) rest := by simp [h']
      rcases flattenRecord_cases h' with ⟨e, hfe⟩ | ⟨row, hfr⟩
      · simp only [flattenBucket, hfe] at h
        exact Except.noConfusion
          (show (Except.error e : Except String (List Dict)) = .ok rows from h)
      · simp only [flattenBucket, hfr] at h
        cases hrest : flattenBucket rest with
        | error e2 =>
          rw [hrest] at h
          exact Except.noConfusion
            (show (Except.error e2 : Except String (List Dict)) = .ok rows from h)
        | ok tl =>
          rw [hrest] at h
          injection (show (Except.ok (row :: tl) :
            Except String (List Dict)) = .ok rows from h) with h3
          subst h3
          rw [hfil]
          simp [ih tl hrest]

/-- C3 counterexample: a bucket holding one error record and one success
record flattens to a single row (the success row, which carries no error
text) — the error record is logged and skipped, not emitted as a row, so
the claimed "one output row per error record in addition to the success
rows" fails at this input. -/
theorem claim_C3_counterexample :
    flattenBucket
        [netErrorRecord netA "boom",
         netSuccessRecord netA (.obj [("x", .int 5)])] =
      .ok [[("network", .str "NetA"), ("deviceName", .str ""),
            ("deviceSerial", .str ""), ("deviceModel", .str ""),
            ("deviceType", .str ""), ("x", .int 5)]] ∧
    hasKey
        [("network", .str "NetA"), ("deviceName", .str ""),
         ("deviceSerial", .str ""), ("deviceModel", .str ""),
         ("deviceType", .str ""), ("x", .int 5)] "error" = false ∧
    ([[("network", .str "NetA"), ("deviceName", .str ""),
       ("deviceSerial", .str ""), ("deviceModel", .str ""),
       ("deviceType", .str ""), ("x", .int 5)]] : List Dict).length = 1 :=
  ⟨rfl, rfl, rfl⟩

/-- C3 amended: an error `ResultRecord` carrying network context is
written to the execution log only and contributes no row to the tabular
output — for a bucket whose error records all carry `'network'`, the
flattened rows are exactly those of its non-error records, one row per
non-error record; an error entry lacking network context (as the
whole-step failure entries of `core.py` 197 are) instead makes the
report generator raise `KeyError` at the log line. -/
theorem claim_C3_error_rows : ∀ bucket : List Dict,
    ((∀ r ∈ bucket, hasKey r "error" = true → hasKey r "network" = true) →
      flattenBucket bucket =
        flattenBucket (bucket.filter fun r => !(hasKey r "error"))) ∧
    (∀ rows, flattenBucket bucket = .ok rows →
      rows.length = (bucket.filter fun r => !(hasKey r "error")).length) ∧
    ∀ r : Dict, hasKey r "error" = true → hasKey r "network" = false →
      flattenRecord r = .error "KeyError: network" :=
  fun bucket =>
    ⟨fun hok => flattenBucket_filter bucket hok,
     fun rows h => flattenBucket_length bucket rows h,
     fun _ he hn => flattenRecord_error_no_network he hn⟩

/-- Witness for C3 (amended) at a concrete bucket: the filter identity
and row count at a bucket whose error record carries network context,
and the `KeyError` outcome at a whole-step failure entry. -/
theorem claim_C3_witness :
    flattenBucket
        [netErrorRecord netA "boom",
         netSuccessRecord netA (.obj [("x", .int 5)])] =
      flattenBucket
        ([netErrorRecord netA "boom",
          netSuccessRecord netA (.obj [("x", .int 5)])].filter
          fun r => !(hasKey r "error")) ∧
    ([[("network", Val.str "NetA"), ("deviceName", Val.str ""),
       ("deviceSerial", Val.str ""), ("deviceModel", Val.str ""),
       ("deviceType", Val.str ""), ("x", Val.int 5)]] : List Dict).length =
      ([netErrorRecord netA "boom",
        netSuccessRecord netA (.obj [("x", .int 5)])].filter
          fun r => !(hasKey r "error")).length ∧
    flattenRecord [("error", Val.str "Failed to execute step s1: boom")] =
      .error "KeyError: network" :=
  ⟨(claim_C3_error_rows _).1 (by decide),
   (claim_C3_error_rows _).2.1 _ rfl,
   (claim_C3_error_rows [] ).2.2 _ (by decide) (by decide)⟩

/-! ## C8: one CSV per non-empty bucket, no file for an empty one -/

theorem alistLookup_isSome_iff {α : Type} (d : List (String × α)) (k : String) :
    (alistLookup d k).isSome = true ↔ ∃ p ∈ d, p.1 = k := by
  induction d with
  | nil => simp [alistLookup]
  | cons hd tl ih =>
    obtain ⟨k', v'⟩ := hd
    by_cases hx : k' = k <;> simp [alistLookup, hx, ih]

theorem mem_rowFold (k : String) :
    ∀ (r : Dict) (cols : List String),
    (k ∈ r.foldl (fun cs kv => if kv.1 ∈ cs then cs else cs ++ [kv.1]) cols) ↔
      (k ∈ cols ∨ ∃ kv ∈ r, kv.1 = k) := by
  intro r
  induction r with
  | nil => simp
  | cons kv rest ih =>
    intro cols
    simp only [List.foldl_cons]
    rw [ih]
    by_cases hc : kv.1 ∈ cols
    · rw [if_pos hc]
      constructor
      · rintro (h | h)
        · exact Or.inl h
        · exact Or.inr (by simpa using Or.inr h)
      · rintro (h | h)
        · exact Or.inl h
        · rcases (by simpa using h : kv.1 = k ∨ ∃ x ∈ rest, x.1 = k) with
            rfl | hr
          · exact Or.inl hc
          · exact Or.inr hr
    · rw [if_neg hc]
      simp only [List.mem_append, List.mem_singleton]
      constructor
      · rintro ((h | h) | h)
        · exact Or.inl h
        · exact Or.inr (by simp [h])
        · exact Or.inr (by simpa using Or.inr h)
      · rintro (h | h)
        · exact Or.inl (Or.inl h)
        · rcases (by simpa using h : kv.1 = k ∨ ∃ x ∈ rest, x.1 = k) with
            rfl | hr
          · exact Or.inl (Or.inr rfl)
          · exact Or.inr hr

theorem mem_keyUnion (k : String) :
    ∀ (rows : List Dict) (cols : List String),
    (k ∈ rows.foldl
        (fun cols r => r.foldl
          (fun cs kv => if kv.1 ∈ cs then cs else cs ++ [kv.1]) cols)
        cols) ↔
      (k ∈ cols ∨ ∃ r ∈ rows, hasKey r k = true) := by
  intro rows
  induction rows with
  | nil => simp
  | cons r rest ih =>
    intro cols
    simp only [List.foldl_cons]
    rw [ih, mem_rowFold]
    simp only [hasKey, alistLookup_isSome_iff, List.mem_cons]
    constructor
    · rintro ((h | h) | ⟨r', hr', h⟩)
      · exact Or.inl h
      · exact Or.inr ⟨r, Or.inl rfl, h⟩
      · exact Or.inr ⟨r', Or.inr hr', h⟩
    · rintro (h | ⟨r', hr' | hr', h⟩)
      · exact Or.inl (Or.inl h)
      · subst hr'; exact Or.inl (Or.inr h)
      · exact Or.inr ⟨r', hr', h⟩

/-- C8: for a bucket's flattened rows, zero rows produce no CSV file and
at least one row produces exactly one CSV whose header is the union of
the keys observed across the rows (plus the generation-timestamp
column), with the timestamp added to every row. -/
theorem claim_C8_csv : ∀ (bucket rows : List Dict) (ts : Val),
    flattenBucket bucket = .ok rows →
    ((bucketCsv rows ts = none ↔ rows = []) ∧
     ∀ csv, bucketCsv rows ts = some csv →
       ((∀ k, k ∈ csv.header ↔
          ((∃ r ∈ rows, hasKey r k = true) ∨ k = "timestamp")) ∧
        ∀ r ∈ csv.rows, alistLookup r "timestamp" = some ts)) := by
  intro bucket rows ts _
  constructor
  · unfold bucketCsv
    cases rows <;> simp
  · intro csv hcsv
    unfold bucketCsv at hcsv
    cases rows with
    | nil => simp at hcsv
    | cons r0 rest =>
      rw [if_neg (by simp)] at hcsv
      cases hcsv
      constructor
      · intro k
        simp only []
        by_cases hts : "timestamp" ∈ keyUnion (r0 :: rest)
        · rw [if_pos hts]
          unfold keyUnion
          rw [mem_keyUnion]
          simp only [List.not_mem_nil, false_or]
          constructor
          · exact Or.inl
          · rintro (h | rfl)
            · exact h
            · unfold keyUnion at hts
              rw [mem_keyUnion] at hts
              simpa using hts
        · rw [if_neg hts]
          simp only [List.mem_append, List.mem_singleton]
          unfold keyUnion
          rw [mem_keyUnion]
          simp
      · intro r hr
        simp only [List.mem_map] at hr
        obtain ⟨r', _, rfl⟩ := hr
        rw [alistLookup_insert]
        simp

/-- Witness for C8 at a concrete bucket with one success record. -/
theorem claim_C8_witness :
    (bucketCsv
        [[("network", Val.str "NetA"), ("deviceName", Val.str ""),
          ("deviceSerial", Val.str ""), ("deviceModel", Val.str ""),
          ("deviceType", Val.str ""), ("x", Val.int 5)]] (.str "T") = none ↔
      ([[("network", Val.str "NetA"), ("deviceName", Val.str ""),
         ("deviceSerial", Val.str ""), ("deviceModel", Val.str ""),
         ("deviceType", Val.str ""), ("x", Val.int 5)]] : List Dict) = []) ∧
    ∀ csv,
      bucketCsv
        [[("network", Val.str "NetA"), ("deviceName", Val.str ""),
          ("deviceSerial", Val.str ""), ("deviceModel", Val.str ""),
          ("deviceType", Val.str ""), ("x", Val.int 5)]] (.str "T") = some csv →
      ((∀ k, k ∈ csv.header ↔
          ((∃ r ∈ [[("network", Val.str "NetA"), ("deviceName", Val.str ""),
              ("deviceSerial", Val.str ""), ("deviceModel", Val.str ""),
              ("deviceType", Val.str ""), ("x", Val.int 5)]],
            hasKey r k = true) ∨ k = "timestamp")) ∧
        ∀ r ∈ csv.rows, alistLookup r "timestamp" = some (.str "T")) :=
  claim_C8_csv [netSuccessRecord netA (.obj [("x", .int 5)])] _ (.str "T") rfl

/-! ## C4: network-level dispatch isolates failures, one record each -/

theorem processNetwork_record (o : Oracles) (step : ApiCall) (n : Network)
    (ed : DevCache) :
    (∃ v, (processNetwork o step n ed).1 = netSuccessRecord n v) ∨
    ∃ e, (processNetwork o step n ed).1 = netErrorRecord n e := by
  unfold processNetwork
  split
  · exact Or.inr ⟨_, rfl⟩
  · split
    · exact Or.inr ⟨_, rfl⟩
    · split
      · split
        · exact Or.inl ⟨_, rfl⟩
        · exact Or.inr ⟨_, rfl⟩
      · exact Or.inl ⟨_, rfl⟩

theorem netLoop_records (o : Oracles) (step : ApiCall) (total : ℕ)
    (base u : ℚ) :
    ∀ (l : List Network) (done : ℕ) (ed : DevCache),
    List.Forall₂
      (fun (r : Dict) (n : Network) =>
        (∃ v, r = netSuccessRecord n v) ∨ ∃ e, r = netErrorRecord n e)
      (netLoop o step total base u l done ed).1 l := by
  intro l
  induction l with
  | nil => intro done ed; exact .nil
  | cons n rest ih =>
    intro done ed
    simp only [netLoop]
    have hrec := processNetwork_record o step n ed
    cases hp : processNetwork o step n ed with
    | mk r0 ed' =>
      rw [hp] at hrec
      exact .cons hrec (ih (done + 1) ed')

/-- C4: a network-level dispatch produces exactly one `ResultRecord` per
target network, in network iteration order — a success record carrying a
`data` payload xor an error record carrying the error string — and a
failure for one network never prevents the remaining networks from being
processed (the correspondence holds for every oracle, failing or not). -/
theorem claim_C4_network_dispatch (o : Oracles) (step : ApiCall)
    (selected : List Network) (ed : DevCache) (base : ℚ) (T : ℕ) :
    (execute_network_call o step selected ed base T).1.length =
      selected.length ∧
    List.Forall₂
      (fun (r : Dict) (n : Network) =>
        (∃ v, r = netSuccessRecord n v ∧
          hasKey r "data" = true ∧ hasKey r "error" = false) ∨
        (∃ e, r = netErrorRecord n e ∧
          hasKey r "error" = true ∧ hasKey r "data" = false))
      (execute_network_call o step selected ed base T).1 selected := by
  have h := netLoop_records o step selected.length base
    ((100 : ℚ) / (T : ℚ)) selected 0 ed
  have h2 : List.Forall₂
      (fun (r : Dict) (n : Network) =>
        (∃ v, r = netSuccessRecord n v ∧
          hasKey r "data" = true ∧ hasKey r "error" = false) ∨
        (∃ e, r = netErrorRecord n e ∧
          hasKey r "error" = true ∧ hasKey r "data" = false))
      (execute_network_call o step selected ed base T).1 selected := by
    refine List.Forall₂.imp ?_ h
    rintro r n (⟨v, rfl⟩ | ⟨e, rfl⟩)
    · exact Or.inl ⟨v, rfl, rfl, rfl⟩
    · exact Or.inr ⟨e, rfl, rfl, rfl⟩
  exact ⟨h2.length_eq, h2⟩

/-! ## C5: device-level dispatch silently omits failed targets -/

theorem devLoop_length (o : Oracles) (step : ApiCall) (total : ℕ)
    (base u : ℚ) :
    ∀ (l : List (Network × Val)) (done : ℕ),
    (devLoop o step total base u l done).1.length =
      (l.filter (targetSucceeds o step)).length := by
  intro l
  induction l with
  | nil => intro done; rfl
  | cons t rest ih =>
    intro done
    obtain ⟨n, d⟩ := t
    simp only [devLoop]
    cases hs : getKey? d "serial" with
    | none =>
      simp [targetSucceeds, hs, ih (done + 1)]
    | some serial =>
      cases hc : o.devcall step n d with
      | error e => simp [targetSucceeds, hs, hc, ih (done + 1)]
      | ok result => simp [targetSucceeds, hs, hc, ih (done + 1)]

/-- C5: in a device-level dispatch each `(network, device)` target whose
call fails (or whose record lacks a serial) contributes no record at all:
the bucket length equals the number of successful targets, and an empty
flattened target list yields zero records without raising. -/
theorem claim_C5_device_dispatch (o : Oracles) (step : ApiCall)
    (selected : List Network) (connDevices : DevCache) (base : ℚ) (T : ℕ) :
    (execute_device_call o step selected connDevices base T).1.length =
      ((allTargets selected connDevices).filter
        (targetSucceeds o step)).length ∧
    (allTargets selected connDevices = [] →
      execute_device_call o step selected connDevices base T = ([], [])) := by
  constructor
  · unfold execute_device_call
    by_cases h : (allTargets selected connDevices).length = 0
    · rw [if_pos h]
      have he : allTargets selected connDevices = [] :=
        List.length_eq_zero.mp h
      simp [he]
    · rw [if_neg h]
      exact devLoop_length o step (allTargets selected connDevices).length
        base ((100 : ℚ) / (T : ℚ)) (allTargets selected connDevices) 0
  · intro h
    unfold execute_device_call
    rw [h]
    rfl

/-- Witness for C5 at a concrete empty target set. -/
theorem claim_C5_witness :
    execute_device_call nameOracle stepPorts [] [] 0 1 = ([], []) :=
  (claim_C5_device_dispatch nameOracle stepPorts [] [] 0 1).2 rfl

/-! ## C1: steps sharing an output bucket overwrite, not append -/

theorem lookup_foldl_insert {α : Type} :
    ∀ (ws : List (String × α)) (init : List (String × α)) (f : String),
    alistLookup (ws.foldl (fun res w => alistInsert res w.1 w.2) init) f =
      match (ws.filter fun w => w.1 = f).getLast? with
      | some w => some w.2
      | none => alistLookup init f := by
  intro ws
  induction ws with
  | nil => intro init f; rfl
  | cons w rest ih =>
    intro init f
    simp only [List.foldl_cons, List.filter_cons]
    by_cases hw : w.1 = f
    · rw [if_pos (by simpa using hw), ih]
      cases hfl : (rest.filter fun w => w.1 = f).getLast? with
      | some w' =>
        have hne : (rest.filter fun w => w.1 = f) ≠ [] := by
          intro hnil
          rw [hnil] at hfl
          cases hfl
        obtain ⟨b, l2, hbl⟩ := List.exists_cons_of_ne_nil hne
        rw [hbl]
        rw [hbl] at hfl
        rw [List.getLast?_cons_cons, hfl]
      | none =>
        have hnil : (rest.filter fun w => w.1 = f) = [] := by
          cases hh : rest.filter fun w => w.1 = f with
          | nil => rfl
          | cons b l2 =>
            rw [hh] at hfl
            simp [List.getLast?_eq_getLast] at hfl
        rw [hnil]
        simp [alistLookup_insert, hw]
    · rw [if_neg (by simpa using hw), ih]
      cases hfl : (rest.filter fun w => w.1 = f).getLast? with
      | some w' => rfl
      | none => simp [alistLookup_insert, hw]

/-- C1 counterexample: a run of two network-level steps sharing the
output bucket `inv` against one network leaves the bucket holding ONLY
the later step's single record (the payload carries the step name `s2`),
not the earlier step's record followed by the later one — the write
`results[step.output_folder] = step_results` replaces the entry. -/
theorem claim_C1_counterexample :
    alistLookup (executePlaybook nameOracle pbTwoSteps [netA] []).results
        "inv" =
      some [netSuccessRecord netA (.str "s2")] ∧
    ([netSuccessRecord netA (.str "s2")] : List Dict).length = 1 :=
  ⟨rfl, rfl⟩

/-- C1 amended: when steps share an output-bucket name, a later step's
result sequence REPLACES the bucket contents; after `execute` each bucket
holds exactly the records of the last step that wrote to it. -/
theorem claim_C1_overwrite (o : Oracles) (pb : Playbook)
    (selected : List Network) (connDevices : DevCache) (f : String) :
    alistLookup (executePlaybook o pb selected connDevices).results f =
      match ((stepWrites o pb selected connDevices).filter
          fun w => w.1 = f).getLast? with
      | some w => some w.2
      | none => none := by
  have hres : (executePlaybook o pb selected connDevices).results =
      (stepWrites o pb selected connDevices).foldl
        (fun res w => alistInsert res w.1 w.2) [] := rfl
  rw [hres, lookup_foldl_insert]
  cases ((stepWrites o pb selected connDevices).filter
    fun w => w.1 = f).getLast? <;> rfl

/-! ## C2: the `networks.devices` cache-warm writes a cache no device
step reads -/

/-- C2: in a run whose discovery is down, a successful `networks.devices`
network-level step stores the serial-filtered device list in the
EXECUTOR's cache (`self.devices`), yet the following device-level step —
which reads `self.connection.devices` — iterates zero devices and yields
an empty bucket: the claimed "any subsequent device-level step iterates
exactly those devices" fails, because the write goes to a cache that
device dispatch never reads. -/
theorem claim_C2_cache_write_unused :
    (executePlaybook cacheWarmOracle pbCacheWarm [netA] []).execDevices =
      [("id1", [.obj [("serial", .str "S1")]])] ∧
    alistLookup (executePlaybook cacheWarmOracle pbCacheWarm [netA] []).results
        "ports" = some [] ∧
    (executePlaybook cacheWarmOracle pbCacheWarm [netA] []).connDevices = [] :=
  ⟨rfl, rfl, rfl⟩

/-! ## C7: device discovery, caching, and serial filtering -/

theorem preload_fold_issued (o : Oracles) :
    ∀ (l : List Network) (c : DevCache) (is : List String),
    (l.map Network.id).Nodup →
    (l.foldl (preloadStep o) (c, is)).2 =
      is ++ (l.filter fun n => !(alistLookup c n.id).isSome).map Network.id := by
  intro l
  induction l with
  | nil => intro c is _; simp
  | cons n rest ih =>
    intro c is hnd
    rw [List.map_cons, List.nodup_cons] at hnd
    obtain ⟨hn, hrest⟩ := hnd
    simp only [List.foldl_cons, List.filter_cons]
    by_cases hc : (alistLookup c n.id).isSome = true
    · rw [show preloadStep o (c, is) n = (c, is) by
        unfold preloadStep; rw [if_pos hc]]
      rw [ih c is hrest]
      simp [hc]
    · have hc' : (alistLookup c n.id).isSome = false := by simpa using hc
      have hne : n.id ∉ rest.map Network.id := hn
      cases hd : o.discover n with
      | ok ds =>
        rw [show preloadStep o (c, is) n =
            (alistInsert c n.id (serialFilter ds), is ++ [n.id]) by
          unfold preloadStep; rw [if_neg (by simp [hc']), hd]]
        rw [ih _ _ hrest]
        have hfil : (rest.filter fun m =>
            !(alistLookup (alistInsert c n.id (serialFilter ds)) m.id).isSome) =
            rest.filter fun m => !(alistLookup c m.id).isSome := by
          apply List.filter_congr
          intro m hm
          have hne2 : n.id ≠ m.id := by
            intro h
            exact hne (h ▸ List.mem_map_of_mem Network.id hm)
          rw [alistLookup_insert, if_neg hne2]
        rw [hfil]
        simp [hc']
      | error e =>
        rw [show preloadStep o (c, is) n = (c, is ++ [n.id]) by
          unfold preloadStep; rw [if_neg (by simp [hc']), hd]]
        rw [ih _ _ hrest]
        simp [hc']

theorem preload_fold_cache (o : Oracles) :
    ∀ (l : List Network) (c : DevCache) (is : List String) (x : String)
      (ds : List Val),
    alistLookup (l.foldl (preloadStep o) (c, is)).1 x = some ds →
    alistLookup c x = some ds ∨
      ∃ n, n ∈ l ∧ n.id = x ∧
        ∃ raw, o.discover n = .ok raw ∧ ds = serialFilter raw := by
  intro l
  induction l with
  | nil =>
    intro c is x ds h
    exact Or.inl h
  | cons n rest ih =>
    intro c is x ds h
    rw [List.foldl_cons] at h
    by_cases hc : (alistLookup c n.id).isSome = true
    · rw [show preloadStep o (c, is) n = (c, is) by
        unfold preloadStep; rw [if_pos hc]] at h
      rcases ih c is x ds h with h1 | ⟨m, hm, rest'⟩
      · exact Or.inl h1
      · exact Or.inr ⟨m, List.mem_cons_of_mem n hm, rest'⟩
    · have hc' : (alistLookup c n.id).isSome = false := by simpa using hc
      cases hd : o.discover n with
      | ok ds0 =>
        rw [show preloadStep o (c, is) n =
            (alistInsert c n.id (serialFilter ds0), is ++ [n.id]) by
          unfold preloadStep; rw [if_neg (by simp [hc']), hd]] at h
        rcases ih _ _ x ds h with h1 | ⟨m, hm, rest'⟩
        · rw [alistLookup_insert] at h1
          by_cases hx : n.id = x
          · rw [if_pos hx] at h1
            injection h1 with h2
            exact Or.inr ⟨n, List.mem_cons_self n rest, hx, ds0, hd, h2.symm⟩
          · rw [if_neg hx] at h1
            exact Or.inl h1
        · exact Or.inr ⟨m, List.mem_cons_of_mem n hm, rest'⟩
      | error e =>
        rw [show preloadStep o (c, is) n = (c, is ++ [n.id]) by
          unfold preloadStep; rw [if_neg (by simp [hc']), hd]] at h
        rcases ih c _ x ds h with h1 | ⟨m, hm, rest'⟩
        · exact Or.inl h1
        · exact Or.inr ⟨m, List.mem_cons_of_mem n hm, rest'⟩

/-- C7 counterexample: during a session against a playbook with one
device-level operation, `select_networks` stores the discovered device
list UNFILTERED — a record lacking a serial identifier (`apDevice`) ends
up in the cache and survives the `execute` preload (which skips cached
networks, issuing no further discovery) — so "every discovered record
lacking a serial identifier is filtered out before the list is stored in
the cache" fails at this input. -/
theorem claim_C7_counterexample :
    (select_networks (fun _ => .ok [apDevice]) [netA] ["id1"] []).2 =
      [("id1", [apDevice])] ∧
    hasSerial apDevice = false ∧
    (executePlaybook cacheWarmOracle pbDevOnly [netA]
        (select_networks (fun _ => .ok [apDevice]) [netA] ["id1"] []).2).connDevices =
      [("id1", [apDevice])] ∧
    (executePlaybook cacheWarmOracle pbDevOnly [netA]
        (select_networks (fun _ => .ok [apDevice]) [netA] ["id1"] []).2).discovered =
      [] :=
  ⟨rfl, rfl, rfl, rfl⟩

/-- C7 amended: within `execute`'s preload (for a playbook with at least
one device-level operation, over distinct selected network ids), a
discovery call is issued exactly for the networks NOT already cached —
at most once per network, never for a cached one — and every list the
preload stores is serial-filtered; but the selection-time pre-cache
(`select_networks`) separately stores fetched lists unfiltered, so a
cache entry either predates the run or is a serial-filtered discovery
result. -/
theorem claim_C7_preload (o : Oracles) (pb : Playbook)
    (selected : List Network) (cd : DevCache)
    (hdev : pb.api_calls.any (·.requires_device) = true)
    (hnd : (selected.map Network.id).Nodup) :
    (executePlaybook o pb selected cd).discovered =
      (selected.filter fun n => !(alistLookup cd n.id).isSome).map Network.id ∧
    (executePlaybook o pb selected cd).discovered.Nodup ∧
    (∀ n ∈ selected, (alistLookup cd n.id).isSome →
      n.id ∉ (executePlaybook o pb selected cd).discovered) ∧
    ∀ x ds, alistLookup (executePlaybook o pb selected cd).connDevices x =
        some ds →
      alistLookup cd x = some ds ∨
        ∃ n, n ∈ selected ∧ n.id = x ∧
          ∃ raw, o.discover n = .ok raw ∧ ds = serialFilter raw := by
  have hdisc : (executePlaybook o pb selected cd).discovered =
      (preload o pb selected cd).2 := rfl
  have hconn : (executePlaybook o pb selected cd).connDevices =
      (preload o pb selected cd).1 := rfl
  have hpre1 : (preload o pb selected cd).2 =
      (selected.filter fun n => !(alistLookup cd n.id).isSome).map Network.id := by
    unfold preload
    rw [if_pos hdev]
    rw [preload_fold_issued o selected cd [] hnd]
    simp
  refine ⟨?_, ?_, ?_, ?_⟩
  · rw [hdisc, hpre1]
  · rw [hdisc, hpre1]
    exact hnd.sublist ((List.filter_sublist selected).map Network.id)
  · intro n hn hsome hmem
    rw [hdisc, hpre1] at hmem
    obtain ⟨m, hmfil, hmid⟩ := List.mem_map.mp hmem
    have hm2 := (List.mem_filter.mp hmfil).2
    rw [hmid] at hm2
    simp [hsome] at hm2
  · intro x ds h
    rw [hconn] at h
    unfold preload at h
    rw [if_pos hdev] at h
    exact preload_fold_cache o selected cd [] x ds h

/-- Witness for C7 (amended) at a concrete session. -/
theorem claim_C7_witness :
    pbDevOnly.api_calls.any (·.requires_device) = true ∧
    (([netA].map Network.id).Nodup) ∧
    (executePlaybook nameOracle pbDevOnly [netA] []).discovered =
      (([netA].filter fun n => !(alistLookup ([] : DevCache) n.id).isSome).map
        Network.id) :=
  ⟨by decide, by decide,
   (claim_C7_preload nameOracle pbDevOnly [netA] [] (by decide) (by decide)).1⟩

/-! ## C9: progress is non-decreasing from 0 and ends at 100 -/

theorem netLoop_progress (o : Oracles) (step : ApiCall) (total : ℕ)
    (base u : ℚ) :
    ∀ (l : List Network) (done : ℕ) (ed : DevCache),
    (netLoop o step total base u l done ed).2.2 =
      (List.range l.length).map fun i =>
        base + (((done + 1 + i : ℕ) : ℚ) / (total : ℚ)) * u := by
  intro l
  induction l with
  | nil => intro done ed; rfl
  | cons n rest ih =>
    intro done ed
    simp only [netLoop, List.length_cons]
    rw [List.range_succ_eq_map, List.map_cons, List.map_map,
      List.cons_eq_cons]
    refine ⟨by norm_num, ?_⟩
    rw [ih (done + 1) (processNetwork o step n ed).2]
    refine List.map_congr_left fun i _ => ?_
    simp only [Function.comp_apply]
    push_cast
    ring

theorem devLoop_progress (o : Oracles) (step : ApiCall) (total : ℕ)
    (base u : ℚ) :
    ∀ (l : List (Network × Val)) (done : ℕ),
    (devLoop o step total base u l done).2 =
      (List.range l.length).map fun i =>
        base + (((done + 1 + i : ℕ) : ℚ) / (total : ℚ)) * u := by
  intro l
  induction l with
  | nil => intro done; rfl
  | cons t rest ih =>
    intro done
    obtain ⟨n, d⟩ := t
    simp only [devLoop, List.length_cons]
    rw [List.range_succ_eq_map, List.map_cons, List.map_map,
      List.cons_eq_cons]
    refine ⟨by norm_num, ?_⟩
    rw [ih (done + 1)]
    refine List.map_congr_left fun i _ => ?_
    simp only [Function.comp_apply]
    push_cast
    ring

theorem chain_progMap (base u : ℚ) (total : ℕ) (hu : 0 ≤ u) :
    ∀ (len s : ℕ) (v : ℚ),
    v ≤ base + ((s : ℚ) / (total : ℚ)) * u →
    List.Chain (· ≤ ·) v
      ((List.range len).map fun i =>
        base + (((s + i : ℕ) : ℚ) / (total : ℚ)) * u) := by
  intro len
  induction len with
  | zero => intro s v _; simp
  | succ m ih =>
    intro s v hv
    rw [List.range_succ_eq_map, List.map_cons, List.map_map]
    refine List.Chain.cons (by exact_mod_cast hv) ?_
    have hmap : (List.range m).map
        ((fun i => base + (((s + i : ℕ) : ℚ) / (total : ℚ)) * u) ∘ Nat.succ) =
        (List.range m).map
          (fun i => base + (((s + 1 + i : ℕ) : ℚ) / (total : ℚ)) * u) := by
      refine List.map_congr_left fun i _ => ?_
      simp only [Function.comp_apply]
      push_cast
      ring
    rw [hmap]
    apply ih (s + 1)
    push_cast
    apply add_le_add_left
    apply mul_le_mul_of_nonneg_right _ hu
    rw [div_eq_mul_inv, div_eq_mul_inv]
    apply mul_le_mul_of_nonneg_right _ (inv_nonneg.mpr (Nat.cast_nonneg total))
    norm_num

theorem progMap_le (base u : ℚ) (total : ℕ) (hu : 0 ≤ u) :
    ∀ (len s : ℕ), s + len ≤ total + 1 → 1 ≤ s →
    ∀ x ∈ (List.range len).map (fun i =>
      base + (((s + i : ℕ) : ℚ) / (total : ℚ)) * u), x ≤ base + u := by
  intro len s hlen hs x hx
  rw [List.mem_map] at hx
  obtain ⟨i, hi, rfl⟩ := hx
  rw [List.mem_range] at hi
  have h1 : s + i ≤ total := by omega
  have h2 : (0 : ℚ) < (total : ℚ) := by exact_mod_cast (by omega : 0 < total)
  have h3 : ((s + i : ℕ) : ℚ) / (total : ℚ) ≤ 1 := by
    rw [div_le_one h2]
    exact_mod_cast h1
  calc base + ((s + i : ℕ) : ℚ) / (total : ℚ) * u ≤ base + 1 * u :=
        add_le_add_left (mul_le_mul_of_nonneg_right h3 hu) base
    _ = base + u := by ring

theorem chain_le_append_one :
    ∀ (l : List ℚ) (v w : ℚ), List.Chain (· ≤ ·) v l →
    (∀ x ∈ l, x ≤ w) → v ≤ w → List.Chain (· ≤ ·) v (l ++ [w])
  | [], _, _, _, _, hvw => .cons hvw .nil
  | x :: xs, v, w, h, hb, _ => by
    cases h with
    | cons hvx hchain =>
      exact .cons hvx
        (chain_le_append_one xs x w hchain
          (fun y hy => hb y (List.mem_cons_of_mem x hy))
          (hb x (List.mem_cons_self x xs)))

theorem runStep_prog_chain (o : Oracles) (T : ℕ) (selected : List Network)
    (cd : DevCache) (step : ApiCall) (done : ℕ) (ed : DevCache) :
    List.Chain (· ≤ ·) (((done : ℕ) : ℚ) / (T : ℚ) * 100)
      ((runStep o T selected cd step (((done : ℕ) : ℚ) / (T : ℚ) * 100)
          ed).2.2 ++
        [((done + 1 : ℕ) : ℚ) / (T : ℚ) * 100] : List ℚ) := by
  set base : ℚ := ((done : ℕ) : ℚ) / (T : ℚ) * 100 with hbase
  have hu : (0 : ℚ) ≤ 100 / (T : ℚ) :=
    div_nonneg (by norm_num) (Nat.cast_nonneg T)
  have houter : ((done + 1 : ℕ) : ℚ) / (T : ℚ) * 100 = base + 100 / (T : ℚ) := by
    rw [hbase]
    push_cast
    ring
  rw [houter]
  have hself : base ≤ base + 100 / (T : ℚ) := le_add_of_nonneg_right hu
  have hfirst : ∀ total : ℕ,
      base ≤ base + (((0 + 1 : ℕ) : ℚ) / (total : ℚ)) * (100 / (T : ℚ)) := by
    intro total
    refine le_add_of_nonneg_right ?_
    have : (0 : ℚ) ≤ ((0 + 1 : ℕ) : ℚ) / (total : ℚ) :=
      div_nonneg (by norm_num) (Nat.cast_nonneg total)
    exact mul_nonneg this hu
  unfold runStep
  by_cases hreq : step.requires_device
  · rw [if_pos hreq]
    unfold execute_device_call
    by_cases hts : (allTargets selected cd).length = 0
    · rw [if_pos hts]
      exact .cons hself .nil
    · rw [if_neg hts]
      rw [devLoop_progress]
      refine chain_le_append_one _ _ _
        (chain_progMap base (100 / (T : ℚ))
          (allTargets selected cd).length hu _ (0 + 1) base (hfirst _)) ?_ hself
      exact progMap_le base (100 / (T : ℚ)) (allTargets selected cd).length hu
        (allTargets selected cd).length (0 + 1) (by omega) (by omega)
  · rw [if_neg hreq]
    unfold execute_network_call
    rw [netLoop_progress]
    refine chain_le_append_one _ _ _
      (chain_progMap base (100 / (T : ℚ)) selected.length hu _ (0 + 1) base
        (hfirst _)) ?_ hself
    exact progMap_le base (100 / (T : ℚ)) selected.length hu
      selected.length (0 + 1) (by omega) (by omega)

theorem execLoop_chain (o : Oracles) (T : ℕ) (selected : List Network)
    (cd : DevCache) :
    ∀ (steps : List ApiCall) (done : ℕ) (ed : DevCache),
    done + steps.length = T →
    List.Chain (· ≤ ·) (((done : ℕ) : ℚ) / (T : ℚ) * 100)
      (execLoop o T selected cd steps done ed).2.2 ∧
    (steps ≠ [] →
      (execLoop o T selected cd steps done ed).2.2.getLast? = some 100) := by
  intro steps
  induction steps with
  | nil =>
    intro done ed _
    exact ⟨.nil, fun h => absurd rfl h⟩
  | cons step rest ih =>
    intro done ed hT
    have hT' : done + 1 + rest.length = T := by
      rw [← hT, List.length_cons]
      omega
    obtain ⟨ihchain, ihlast⟩ := ih (done + 1)
      (runStep o T selected cd step
        (((done : ℕ) : ℚ) / (T : ℚ) * 100) ed).2.1 hT'
    have hstep := runStep_prog_chain o T selected cd step done ed
    constructor
    · simp only [execLoop]
      exact List.chain_split.mpr ⟨hstep, ihchain⟩
    · intro _
      simp only [execLoop]
      by_cases hrest : rest = []
      · subst hrest
        have hempty : (execLoop o T selected cd [] (done + 1)
            (runStep o T selected cd step
              (((done : ℕ) : ℚ) / (T : ℚ) * 100) ed).2.1).2.2 = [] := rfl
        rw [hempty, List.getLast?_concat]
        have hTpos : T = done + 1 := by
          rw [← hT]
          simp
        have hout : ((done + 1 : ℕ) : ℚ) / (T : ℚ) * 100 = 100 := by
          rw [hTpos]
          have hne : ((done + 1 : ℕ) : ℚ) ≠ 0 := by
            exact_mod_cast Nat.succ_ne_zero done
          rw [div_self hne]
          norm_num
        rw [hout]
      · have hlast2 := ihlast hrest
        have hne : (execLoop o T selected cd rest (done + 1)
            (runStep o T selected cd step
              (((done : ℕ) : ℚ) / (T : ℚ) * 100) ed).2.1).2.2 ≠ [] := by
          intro hnil
          rw [hnil] at hlast2
          cases hlast2
        rw [List.getLast?_append_of_ne_nil _ (List.cons_ne_nil _ _)]
        obtain ⟨b, l2, hbl⟩ := List.exists_cons_of_ne_nil hne
        rw [hbl] at hlast2 ⊢
        rw [List.getLast?_cons_cons]
        exact hlast2

set_option maxRecDepth 10000 in
/-- C9 counterexample: with the arithmetic the program actually performs
(IEEE-754 binary64), the progress sequence is NOT monotonically
non-decreasing.  For a three-step playbook whose first step is
network-level against one network, the inner update after that network
(`core.py` 262) is `0 + 1/1 * (100/3) = 33.333333333333336`
(`4691249611844267 * 2^-47`), and the coarse update that follows
(`core.py` 199) is `1/3 * 100 = 33.33333333333333`
(`4691249611844266 * 2^-47`): a strict decrease of one ulp, because the
two expressions round differently.  The coarse update at the final step,
`3/3 * 100`, is still exactly 100. -/
theorem claim_C9_counterexample :
    pyNetProgressF (pyStepBaseF 1 3) 1 1 3 = ⟨4691249611844267, -47⟩ ∧
    pyCoarseProgressF 1 3 = ⟨4691249611844266, -47⟩ ∧
    F64.le (pyNetProgressF (pyStepBaseF 1 3) 1 1 3) (pyCoarseProgressF 1 3) =
      false ∧
    ¬ List.Chain' (fun a b => F64.le a b = true) floatProgressRun3 ∧
    pyCoarseProgressF 3 3 = intF 100 := by
  refine ⟨by decide, by decide, by decide, ?_, by decide⟩
  intro h
  have h1 : List.Chain (fun a b => F64.le a b = true) (intF 0)
      [pyNetProgressF (pyStepBaseF 1 3) 1 1 3, pyCoarseProgressF 1 3] := h
  cases h1 with
  | cons _ h2 =>
    cases h2 with
    | cons hbc _ => exact absurd hbc (by decide)

/-- C9 amended: in exact rational arithmetic — the idealization of the
progress formulas, in which the claim was evidently intended — the
sequence of values `execute` passes to the progress callback starts at
0, is monotonically non-decreasing and ends at exactly 100, for every
oracle, playbook with at least one step (as validation guarantees),
selection and cache; under the binary64 rounding the program actually
uses, adjacent values can instead decrease by one ulp at a step boundary
(see the counterexample), while the initial 0 and the final 100 remain
exact. -/
theorem claim_C9_progress (o : Oracles) (pb : Playbook)
    (selected : List Network) (cd : DevCache)
    (hsteps : pb.api_calls ≠ []) :
    (executePlaybook o pb selected cd).progress.head? = some 0 ∧
    List.Chain' (· ≤ ·) (executePlaybook o pb selected cd).progress ∧
    (executePlaybook o pb selected cd).progress.getLast? = some 100 := by
  have hprog : (executePlaybook o pb selected cd).progress =
      0 :: (execLoop o pb.api_calls.length selected
        (preload o pb selected cd).1 pb.api_calls 0 []).2.2 := rfl
  obtain ⟨hchain, hlast⟩ := execLoop_chain o pb.api_calls.length selected
    (preload o pb selected cd).1 pb.api_calls 0 [] (by omega)
  have hchain0 : List.Chain (· ≤ ·) 0
      (execLoop o pb.api_calls.length selected
        (preload o pb selected cd).1 pb.api_calls 0 []).2.2 := by
    have : (((0 : ℕ) : ℚ) / ((pb.api_calls.length : ℕ) : ℚ) * 100) = 0 := by
      norm_num
    rwa [this] at hchain
  have hlast2 := hlast hsteps
  refine ⟨by rw [hprog]; rfl, ?_, ?_⟩
  · rw [hprog]
    exact hchain0
  · rw [hprog]
    have hne : (execLoop o pb.api_calls.length selected
        (preload o pb selected cd).1 pb.api_calls 0 []).2.2 ≠ [] := by
      intro hnil
      rw [hnil] at hlast2
      cases hlast2
    obtain ⟨b, l2, hbl⟩ := List.exists_cons_of_ne_nil hne
    rw [hbl] at hlast2 ⊢
    rw [List.getLast?_cons_cons]
    exact hlast2

/-- Witness for C9 at a concrete one-step run. -/
theorem claim_C9_witness :
    pbOneStep.api_calls ≠ [] ∧
    ((executePlaybook nameOracle pbOneStep [] []).progress.head? = some 0 ∧
     List.Chain' (· ≤ ·) (executePlaybook nameOracle pbOneStep [] []).progress ∧
     (executePlaybook nameOracle pbOneStep [] []).progress.getLast? =
       some 100) :=
  ⟨by simp [pbOneStep], claim_C9_progress nameOracle pbOneStep [] []
    (by simp [pbOneStep])⟩

end MerakiAuditor
